import Mathlib

/-!
Verification of the install command of sc-component-manager
(src/src/manager/commands/command_install/sc_component_manager_command_install.cpp).

The embedding is a shallow one.  The knowledge store (ScMemoryContext plus the
componentUtils::SearchUtils helpers) and the directory-listing part of the
filesystem are external collaborators, modelled as a record of pure lookup
functions (`Env`).  The observable effects of the command — log lines, the
set of directories that exist on disk, the external processes spawned by
ScExec, and the scs files handed to ScsLoader — are threaded through an
explicit state record (`MState`).  The mutual recursion between Execute and
InstallDependencies is embedded with an explicit recursion-depth fuel, so
that the definitions stay structurally recursive and compute by `rfl`:
`Execute ... fuel ... = none` means the source recursion did not bottom out
within call depth `fuel`; a `some` result is the value the source returns.
-/

namespace SCM

/-- Model of the sc-memory ScAddr handle: a handle that may be invalid (the
default-constructed address, value 0). -/
structure ScAddr where
  val : Nat
deriving DecidableEq, Repr

/-- The default-constructed, invalid address. -/
def ScAddr.invalid : ScAddr := ⟨0⟩

/-- The validity check ScAddr::IsValid(). -/
def ScAddr.IsValid (a : ScAddr) : Bool := a.val != 0

/-- Model of `utils::ScException`: the two strings the command logs
(`exception.Message()` and `exception.Description()`). -/
structure ScErr where
  Message : String
  Description : String
deriving DecidableEq, Repr

/-- Severity of a log line (SC_LOG_DEBUG / SC_LOG_INFO / SC_LOG_WARNING /
SC_LOG_ERROR). -/
inductive LogLevel where
  | debug
  | info
  | warning
  | err
deriving DecidableEq, Repr

/-- One emitted log line. -/
structure LogEntry where
  level : LogLevel
  msg : String
deriving DecidableEq, Repr

/-- The observable effects of one run of the command:
* `logs`   — log lines, in emission order;
* `dirs`   — directories existing on disk (consulted by `stat`, extended by
  `sc_fs_mkdirs`);
* `execs`  — the argument vectors passed to `ScExec` (the git-clone calls);
* `loaded` — the file paths passed to `ScsLoader::loadScsFile` (each call
  mutates the knowledge store). -/
structure MState where
  logs : List LogEntry
  dirs : List String
  execs : List (List String)
  loaded : List String
deriving DecidableEq, Repr

/-- Append one log line. -/
def MState.log (st : MState) (lv : LogLevel) (m : String) : MState :=
  { st with logs := st.logs ++ [⟨lv, m⟩] }

/-- The state at process start: nothing logged, run or loaded yet, and (for
concrete scenarios) no staging directory on disk. -/
def initState : MState := ⟨[], [], [], []⟩

/-- The external collaborators, as pure lookups (the store is only read by
this command; its mutation through the loader is recorded in
`MState.loaded`):
* `findBySystemIdtf`  — `ScMemoryContext::HelperFindBySystemIdtf`;
* `getSystemIdtf`     — `ScMemoryContext::HelperGetSystemIdtf`;
* `isReusable`        — whether the `Iterator3(concept_reusable_component,
  EdgeAccessConstPosPerm, componentAddr)` iterator has a first element;
* `getComponentAddress`, `getComponentInstallationMethod`,
  `getComponentDependencies` — the `componentUtils::SearchUtils` helpers,
  which may raise (`Except.error`);
* `linkContent`       — content of a valid link address;
* `listDir`           — `opendir`/`readdir`: the immediate entries of a
  directory, `none` when `opendir` yields no handle. -/
structure Env where
  findBySystemIdtf : String → ScAddr
  getSystemIdtf : ScAddr → String
  isReusable : ScAddr → Bool
  getComponentAddress : ScAddr → Except ScErr ScAddr
  linkContent : ScAddr → String
  getComponentInstallationMethod : ScAddr → Except ScErr ScAddr
  getComponentDependencies : ScAddr → Except ScErr (List ScAddr)
  listDir : String → Option (List String)

/-- Model of ScMemoryContext::GetLinkContent(addr, out): the out-string keeps its
empty initial value when the address is invalid (no link to read). -/
def Env.getLinkContent (env : Env) (a : ScAddr) : String :=
  if a.IsValid then env.linkContent a else ""

/-- The command object: its one data member `m_specificationsPath`. -/
structure Mgr where
  m_specificationsPath : String

/-- Model of `CommandParameters` (a map from parameter name to a list of
string values): lookup by key, `none` when `at` would throw. -/
abbrev CommandParameters := String → Option (List String)

/-- Modelled from the spec: the one recognized parameter key, carrying the
list of component identifiers to install.  The constant itself lives in
command_init_constants.hpp, which is not part of the staged sources; no
result below depends on its value. -/
def PARAMETER_NAME : String := "idtf"

/-- A `CommandParameters` value binding `PARAMETER_NAME` to `ids`; with a
one-element list this is the `dependencyParameters` map built on line 159 of
the source. -/
def paramsOf (ids : List String) : CommandParameters :=
  fun key => if key = PARAMETER_NAME then some ids else none

/-- Modelled from the spec: the recognized hosting prefix of a remote
address (the GitHub prefix, `GitHubConstants::GITHUB_PREFIX`; the constant
lives outside the staged sources).  No result below depends on its exact
value, only on where the source looks for it in the address. -/
def GITHUB_PREFIX : String := "https://github.com/"

/-- Model of the C++ test s.find(pat) != npos (likewise rfind): `pat` occurs
somewhere in `s`.  C++ find looks for the pattern anywhere, not only at
the front. -/
def strContains (s pat : String) : Bool := decide (pat.data <:+: s.data)

/-- Model of content.substr at the index content.rfind gives for the slash
character: the suffix of `content` starting
at (and including) its last slash.  The source only evaluates this on
addresses that passed the hosting-prefix test and therefore contain a
slash; on a slashless string `rfind` would return `npos` and `substr` would
throw, while this total model returns a slash followed by the whole
string — the difference is unreachable from `DownloadComponent`. -/
def suffixFromLastSlash (s : String) : String :=
  ⟨'/' :: (s.data.reverse.takeWhile (fun c => c ≠ '/')).reverse⟩

/-- The string `name` with `seg` appended `k` times: the candidate staging-directory
names tried by the collision-avoidance loop. -/
def appendSegs (name seg : String) : Nat → String
  | 0 => name
  | k + 1 => appendSegs name seg k ++ seg

/-- The collision-avoidance loop of lines 199–202:
`while (stat(componentDirName.c_str(), &sb) == 0) componentDirName += seg;`
with `stat == 0` modelled as membership in the list of existing directories.
The loop is embedded with a step bound so that it stays structurally
recursive; `findFreeDirName` runs it with bound `fs.length + 1`, which is
proved sufficient whenever `seg` is non-empty (`findFreeDirNameAux_spec`).
When `seg` is empty the source loop never terminates on a colliding name;
the bound then merely cuts the model off, but `DownloadComponent` always
passes a segment starting with a slash. -/
def findFreeDirNameAux (fs : List String) (seg : String) : Nat → String → String
  | 0, componentDirName => componentDirName
  | fuel + 1, componentDirName =>
    if componentDirName ∈ fs then
      findFreeDirNameAux fs seg fuel (componentDirName ++ seg)
    else
      componentDirName

/-- The staging-directory name the loop of lines 199–202 settles on. -/
def findFreeDirName (fs : List String) (seg name : String) : String :=
  findFreeDirNameAux fs seg (fs.length + 1) name

/-- The staging directory `DownloadComponent` creates for an address with
content `content`, given the directories existing in `st`. -/
def chosenDirName (m : Mgr) (st : MState) (content : String) : String :=
  findFreeDirName st.dirs (suffixFromLastSlash content)
    (m.m_specificationsPath ++ suffixFromLastSlash content)

/-- The directory whose entries are enumerated after the clone (line 212
appends the path segment once more before `opendir`). -/
def cloneDirName (m : Mgr) (st : MState) (content : String) : String :=
  chosenDirName m st content ++ suffixFromLastSlash content

/-- Lines 108–127 of `ValidateComponent`: look up the installation method
(errors caught and logged, leaving an invalid address) and check it. -/
def ValidateComponentMethod (env : Env) (st : MState) (componentAddr : ScAddr) :
    Bool × MState :=
  let (componentInstallationMethod, st) :=
    match env.getComponentInstallationMethod componentAddr with
    | .ok a => (a, st)
    | .error e => (ScAddr.invalid, (st.log .err e.Message).log .err e.Description)
  if !componentInstallationMethod.IsValid then
    (false, st.log .warning "Component installation method not found.")
  else
    (true, st)

/-- Lines 100–127 of `ValidateComponent`: check the resolved address link
content, then the installation method. -/
def ValidateComponentAddr (env : Env) (st : MState) (componentAddr : ScAddr)
    (componentAddressAddr : ScAddr) : Bool × MState :=
  let componentAddressContent := env.getLinkContent componentAddressAddr
  if componentAddressContent.isEmpty then
    (false, st.log .warning "Component address not found.")
  else
    ValidateComponentMethod env st componentAddr

/-- The validator ScComponentManagerCommandInstall::ValidateComponent
(lines 70–128):
existence, reusable tag, address link content, installation method, in that
order, logging a warning at the first failing check.  Store exceptions from
the two lookups are caught and logged (lines 90–98 and 111–119). -/
def ValidateComponent (env : Env) (st : MState) (componentAddr : ScAddr) :
    Bool × MState :=
  if !componentAddr.IsValid then
    (false, st.log .warning "Component not found. Unable to install")
  else if !env.isReusable componentAddr then
    (false, st.log .warning "Component is not a reusable component.")
  else
    match env.getComponentAddress componentAddr with
    | .ok componentAddressAddr =>
      ValidateComponentAddr env st componentAddr componentAddressAddr
    | .error e =>
      ValidateComponentAddr env ((st.log .err e.Message).log .err e.Description)
        componentAddr ScAddr.invalid

/-- Lines 192–225 of `DownloadComponent`, once the address content is in
hand: if the content mentions the hosting prefix, pick a collision-free
staging directory, create it, spawn the clone, and load every directory
entry whose name mentions the scs extension; otherwise do nothing. -/
def DownloadComponentBody (m : Mgr) (env : Env) (st : MState)
    (componentAddressContent : String) : MState :=
  if strContains componentAddressContent GITHUB_PREFIX then
    let componentDirName := chosenDirName m st componentAddressContent
    -- sc_fs_mkdirs(componentDirName.c_str())  (line 203)
    let st := { st with dirs := componentDirName :: st.dirs }
    -- ScExec{{"cd", componentDirName, "&&", "git clone ", content}}  (line 205)
    let st := { st with
      execs := st.execs ++
        [["cd", componentDirName, "&&", "git clone ", componentAddressContent]] }
    -- componentDirName += content.substr(idx); opendir; readdir loop (209–224)
    let loadDirName := componentDirName ++ suffixFromLastSlash componentAddressContent
    match env.listDir loadDirName with
    | none => st
    | some entries =>
      { st with
        loaded := st.loaded ++
          (entries.filter (fun filename => strContains filename ".scs")).map
            (fun filename => loadDirName ++ "/" ++ filename) }
  else
    st

/-- The fetcher ScComponentManagerCommandInstall::DownloadComponent
(lines 177–226): resolve the component address (exception caught and logged, lines
181–189), read its link content, and run the fetch body on it. -/
def DownloadComponent (m : Mgr) (env : Env) (st : MState)
    (componentAddr : ScAddr) : MState :=
  match env.getComponentAddress componentAddr with
  | .ok componentAddressAddr =>
    DownloadComponentBody m env st (env.getLinkContent componentAddressAddr)
  | .error e =>
    DownloadComponentBody m env ((st.log .err e.Message).log .err e.Description)
      (env.getLinkContent ScAddr.invalid)

/-- The dependency loop of `InstallDependencies` (lines 155–169).  `execRec`
is the recursive call back into `Execute` (line 160); `result` is the plan
accumulated so far.  A recursive install that comes back with an empty plan
is logged and returned at once (lines 163–167), dropping `result` but
keeping every effect already in the state; otherwise the dependency plan
is inserted at the front of the accumulator (line 168). -/
def DepLoopAux (env : Env)
    (execRec : MState → CommandParameters → Option (List String × MState)) :
    MState → List String → List ScAddr → Option (List String × MState)
  | st, result, [] => some (result, st)
  | st, result, componentDependency :: rest =>
    let dependencyIdtf := env.getSystemIdtf componentDependency
    let st := st.log .info
      ("ScComponentManager: Install dependency \"" ++ dependencyIdtf ++ "\"")
    match execRec st (paramsOf [dependencyIdtf]) with
    | none => none
    | some (dependencyResult, st) =>
      if dependencyResult.isEmpty then
        some (dependencyResult,
          st.log .err ("Dependency \"" ++ dependencyIdtf ++ "\" is not installed"))
      else
        DepLoopAux env execRec st (dependencyResult ++ result) rest

/-- The resolver ScComponentManagerCommandInstall::InstallDependencies
(lines 136–172):
fetch the dependency list (exception caught and logged, lines 145–153,
degrading to an empty list) and run the dependency loop over it. -/
def InstallDependenciesAux (env : Env)
    (execRec : MState → CommandParameters → Option (List String × MState))
    (st : MState) (componentAddr : ScAddr) : Option (List String × MState) :=
  match env.getComponentDependencies componentAddr with
  | .ok componentDependencies => DepLoopAux env execRec st [] componentDependencies
  | .error e =>
    DepLoopAux env execRec ((st.log .err e.Message).log .err e.Description) [] []

/-- The identifier loop of `Execute` (lines 39–56).  For each requested
identifier: resolve, validate (skipping with a warning on failure, lines
44–48), install dependencies — with the returned plan discarded, line 51 —
then download.  Line 58 returns `result`, which no statement of the loop
ever extends, so the `[]` handed back at the end of the list is exactly the
`result` of the source. -/
def ExecuteLoopAux (m : Mgr) (env : Env)
    (execRec : MState → CommandParameters → Option (List String × MState)) :
    MState → List String → Option (List String × MState)
  | st, [] => some ([], st)
  | st, componentToInstallIdentifier :: rest =>
    let componentAddr := env.findBySystemIdtf componentToInstallIdentifier
    let st := st.log .debug ("Validating component \"" ++ componentToInstallIdentifier)
    match ValidateComponent env st componentAddr with
    | (false, st) =>
      ExecuteLoopAux m env execRec
        (st.log .warning
          ("Unable to install component \"" ++ componentToInstallIdentifier))
        rest
    | (true, st) =>
      let st := st.log .debug
        ("Component \"" ++ componentToInstallIdentifier ++ "\" is specified correctly")
      match InstallDependenciesAux env execRec st componentAddr with
      | none => none
      | some (_, st) =>
        let st := DownloadComponent m env st componentAddr
        ExecuteLoopAux m env execRec st rest

/-- The entry point ScComponentManagerCommandInstall::Execute (lines 19–59),
indexed by
the recursion depth still allowed.  `none` means the mutual recursion with
`InstallDependencies` did not bottom out within that depth — the fuel is
spent only on re-entering `Execute`, so depth `n` models a call stack `n`
frames deep.  A missing parameter (the `catch` of lines 30–36) logs and
returns the empty result. -/
def Execute (m : Mgr) (env : Env) :
    Nat → MState → CommandParameters → Option (List String × MState)
  | 0, _, _ => none
  | fuel + 1, st, commandParameters =>
    match commandParameters PARAMETER_NAME with
    | none =>
      some ([], st.log .info "No identifier provided, installing all to install components")
    | some componentsToInstall =>
      ExecuteLoopAux m env (Execute m env fuel) st componentsToInstall

/-- The address the validator works with after lines 88–98: the looked-up
link address, or the still-default (invalid) one when the lookup raised. -/
def resolvedAddressAddr (env : Env) (c : ScAddr) : ScAddr :=
  match env.getComponentAddress c with
  | .ok a => a
  | .error _ => ScAddr.invalid

/-- The installation-method address after lines 108–119: the looked-up one,
or the still-default (invalid) one when the lookup raised. -/
def resolvedMethodAddr (env : Env) (c : ScAddr) : ScAddr :=
  match env.getComponentInstallationMethod c with
  | .ok a => a
  | .error _ => ScAddr.invalid

/-- A command object with staging root "spec", for concrete scenarios. -/
def mgr : Mgr := ⟨"spec"⟩

/-- A store holding a component 1 that exists and has every other piece of
metadata reachable, but is not tagged reusable; its address lookup would
even raise if consulted. -/
def envNotReusable : Env where
  findBySystemIdtf := fun id => if id = "P" then ⟨1⟩ else ScAddr.invalid
  getSystemIdtf := fun _ => "P"
  isReusable := fun _ => false
  getComponentAddress := fun _ => .error ⟨"address lookup raised", "must stay unobserved"⟩
  linkContent := fun _ => "https://github.com/lib/p"
  getComponentInstallationMethod := fun _ => .ok ⟨30⟩
  getComponentDependencies := fun _ => .ok []
  listDir := fun _ => none

/-- A store holding a reusable component 1 whose address lookup raises. -/
def envAddrRaises : Env where
  findBySystemIdtf := fun id => if id = "P" then ⟨1⟩ else ScAddr.invalid
  getSystemIdtf := fun _ => "P"
  isReusable := fun a => a.val == 1
  getComponentAddress := fun _ => .error ⟨"store failure", "link lookup raised"⟩
  linkContent := fun _ => "https://github.com/lib/p"
  getComponentInstallationMethod := fun _ => .ok ⟨30⟩
  getComponentDependencies := fun _ => .ok []
  listDir := fun _ => none

/-- The invalid address fails `IsValid`. -/
theorem ScAddr.IsValid_invalid : ScAddr.invalid.IsValid = false := rfl

/-- Reading link content of the invalid address yields the empty string. -/
theorem Env.getLinkContent_invalid (env : Env) :
    env.getLinkContent ScAddr.invalid = "" := rfl

/-- The empty string is empty. -/
theorem emptyString_isEmpty : "".isEmpty = true := rfl

/-- The boolean the method check (lines 108–127) computes. -/
theorem ValidateComponentMethod_fst (env : Env) (st : MState) (c : ScAddr) :
    (ValidateComponentMethod env st c).1 = (resolvedMethodAddr env c).IsValid := by
  unfold ValidateComponentMethod resolvedMethodAddr
  rcases hM : env.getComponentInstallationMethod c with e | a
  · simp [ScAddr.IsValid_invalid]
  · simp only []
    cases h : a.IsValid <;> simp [h]

/-- The boolean the address-and-method part (lines 100–127) computes. -/
theorem ValidateComponentAddr_fst (env : Env) (st : MState) (c aa : ScAddr) :
    (ValidateComponentAddr env st c aa).1 =
      (!(env.getLinkContent aa).isEmpty && (resolvedMethodAddr env c).IsValid) := by
  unfold ValidateComponentAddr
  cases h : (env.getLinkContent aa).isEmpty <;>
    simp [h, ValidateComponentMethod_fst]

/-- Once the first two checks pass, validation continues with the resolved
(or invalid, after a caught exception) address. -/
theorem ValidateComponent_eq_addr (env : Env) (st : MState) (c : ScAddr)
    (hV : c.IsValid = true) (hR : env.isReusable c = true) :
    ValidateComponent env st c =
      match env.getComponentAddress c with
      | .ok a => ValidateComponentAddr env st c a
      | .error e =>
        ValidateComponentAddr env ((st.log .err e.Message).log .err e.Description)
          c ScAddr.invalid := by
  unfold ValidateComponent
  simp [hV, hR]

/-- The boolean `ValidateComponent` computes: all four checks. -/
theorem ValidateComponent_fst (env : Env) (st : MState) (c : ScAddr) :
    (ValidateComponent env st c).1 =
      (c.IsValid && env.isReusable c &&
        !(env.getLinkContent (resolvedAddressAddr env c)).isEmpty &&
        (resolvedMethodAddr env c).IsValid) := by
  cases hV : c.IsValid
  · unfold ValidateComponent
    simp [hV]
  · cases hR : env.isReusable c
    · unfold ValidateComponent
      simp [hV, hR]
    · rw [ValidateComponent_eq_addr env st c hV hR]
      unfold resolvedAddressAddr
      rcases hA : env.getComponentAddress c with e | a <;>
        simp [hA, ValidateComponentAddr_fst, hV, hR, Env.getLinkContent_invalid,
          emptyString_isEmpty]

/-- C2.  For every componentRef, `ValidateComponent` answers true exactly
when the ref is valid, the component carries the reusable tag, the resolved
remote-address link content is non-empty and the resolved
installation-method address is valid; and it stops at the first failing
check: an invalid ref, or a present-but-unreusable component, is rejected
with just the warning of that check logged — in the latter case whatever the
remaining metadata looks like, the later lookups are never consulted. -/
theorem C2_validate_iff_and_short_circuit (env : Env) (st : MState) (c : ScAddr) :
    ((ValidateComponent env st c).1 = true ↔
      (c.IsValid = true ∧ env.isReusable c = true ∧
        (env.getLinkContent (resolvedAddressAddr env c)).isEmpty = false ∧
        (resolvedMethodAddr env c).IsValid = true)) ∧
    (c.IsValid = false →
      ValidateComponent env st c =
        (false, st.log .warning "Component not found. Unable to install")) ∧
    (c.IsValid = true → env.isReusable c = false →
      ValidateComponent env st c =
        (false, st.log .warning "Component is not a reusable component.")) ∧
    (c.IsValid = true → env.isReusable c = true →
      (env.getLinkContent (resolvedAddressAddr env c)).isEmpty = true →
      (ValidateComponent env st c).1 = false) := by
  refine ⟨?_, ?_, ?_, ?_⟩
  · rw [ValidateComponent_fst]
    simp [Bool.and_eq_true, Bool.not_eq_true', and_assoc]
  · intro hV
    unfold ValidateComponent
    simp [hV]
  · intro hV hR
    unfold ValidateComponent
    simp [hV, hR]
  · intro hV hR hC
    rw [ValidateComponent_fst, hV, hR, hC]
    simp

/-- C2 witness: component 1 of `envNotReusable` exists but lacks the
reusable tag, so validation rejects it with only the reusable-check
warning, although its installation method resolves and its address link
content would be non-empty — the raising address lookup is never reached. -/
theorem C2_validate_witness :
    ValidateComponent envNotReusable initState ⟨1⟩ =
      (false, initState.log .warning "Component is not a reusable component.") :=
  (C2_validate_iff_and_short_circuit envNotReusable initState ⟨1⟩).2.2.1 rfl rfl

/-- C4.  When a store lookup inside `ValidateComponent` raises — the
remote-address lookup, or the installation-method lookup after a non-empty
address was read — the error is caught, its message and description are
logged, and validation returns false with the corresponding not-found
warning; no exception escapes (the function is total and yields a value). -/
theorem C4_lookup_errors_caught_and_logged (env : Env) (st : MState) (c : ScAddr)
    (e : ScErr) (h1 : c.IsValid = true) (h2 : env.isReusable c = true) :
    (env.getComponentAddress c = .error e →
      ValidateComponent env st c =
        (false,
          ((st.log .err e.Message).log .err e.Description).log .warning
            "Component address not found.")) ∧
    (∀ a, env.getComponentAddress c = .ok a →
      (env.getLinkContent a).isEmpty = false →
      env.getComponentInstallationMethod c = .error e →
      ValidateComponent env st c =
        (false,
          ((st.log .err e.Message).log .err e.Description).log .warning
            "Component installation method not found.")) := by
  constructor
  · intro hA
    rw [ValidateComponent_eq_addr env st c h1 h2, hA]
    unfold ValidateComponentAddr
    simp [Env.getLinkContent_invalid, emptyString_isEmpty]
  · intro a hA hC hM
    rw [ValidateComponent_eq_addr env st c h1 h2, hA]
    unfold ValidateComponentAddr ValidateComponentMethod
    simp [hC, hM, ScAddr.IsValid_invalid]

/-- C4 witness: in `envAddrRaises` the address lookup of component 1 raises;
validation logs the error strings and rejects with the address-not-found
warning. -/
theorem C4_lookup_errors_witness :
    ValidateComponent envAddrRaises initState ⟨1⟩ =
      (false,
        ((initState.log .err "store failure").log .err "link lookup raised").log
          .warning "Component address not found.") :=
  (C4_lookup_errors_caught_and_logged envAddrRaises initState ⟨1⟩
    ⟨"store failure", "link lookup raised"⟩ rfl rfl).1 rfl

/-- No branch of the identifier loop ever extends the `result` declared on
line 23, so any plan the loop hands back is the empty one. -/
theorem ExecuteLoopAux_fst_nil (m : Mgr) (env : Env)
    (execRec : MState → CommandParameters → Option (List String × MState)) :
    ∀ (comps : List String) (st : MState) (r : List String) (st' : MState),
      ExecuteLoopAux m env execRec st comps = some (r, st') → r = [] := by
  intro comps
  induction comps with
  | nil =>
    intro st r st' h
    simp only [ExecuteLoopAux, Option.some.injEq, Prod.mk.injEq] at h
    exact h.1.symm
  | cons id rest ih =>
    intro st r st' h
    simp only [ExecuteLoopAux] at h
    split at h
    · exact ih _ _ _ h
    · split at h
      · exact absurd h (by simp)
      · exact ih _ _ _ h

/-- The plan Execute returns is the empty list whenever the recursion
bottoms out: the source never appends to the `result` it returns. -/
theorem Execute_fst_nil (m : Mgr) (env : Env) (fuel : Nat) (st : MState)
    (params : CommandParameters) (r : List String) (st' : MState)
    (h : Execute m env fuel st params = some (r, st')) : r = [] := by
  cases fuel with
  | zero => cases h
  | succ fuel =>
    rw [Execute] at h
    rcases hP : params PARAMETER_NAME with _ | ids
    · rw [hP] at h
      simp only [Option.some.injEq, Prod.mk.injEq] at h
      exact h.1.symm
    · rw [hP] at h
      exact ExecuteLoopAux_fst_nil m env _ ids st r st' h

/-- A store with component P (addr 1) depending on component D (addr 2),
both fully valid; the addresses are local ones, so fetching is a no-op and
concrete states stay small. -/
def envPair : Env where
  findBySystemIdtf := fun id =>
    if id = "P" then ⟨1⟩ else if id = "D" then ⟨2⟩ else ScAddr.invalid
  getSystemIdtf := fun a => if a.val = 1 then "P" else if a.val = 2 then "D" else ""
  isReusable := fun a => a.val == 1 || a.val == 2
  getComponentAddress := fun a =>
    if a.val = 1 then .ok ⟨10⟩ else if a.val = 2 then .ok ⟨20⟩ else .ok ScAddr.invalid
  linkContent := fun a =>
    if a.val = 10 then "local-p" else if a.val = 20 then "local-d" else ""
  getComponentInstallationMethod := fun _ => .ok ⟨30⟩
  getComponentDependencies := fun a => if a.val = 1 then .ok [⟨2⟩] else .ok []
  listDir := fun _ => none

/-- Variant of `envPair` with GitHub remote addresses and a cloned directory holding
one scs file, so both installs perform a full fetch-and-load. -/
def envPairGit : Env := { envPair with
  linkContent := fun a =>
    if a.val = 10 then "https://github.com/lib/p"
    else if a.val = 20 then "https://github.com/lib/d" else ""
  listDir := fun _ => some ["component.scs"] }

/-- Variant of `envPair` with the reusable tag only on P, so the dependency D fails
validation and its recursive install comes back with the empty plan. -/
def envDepFail : Env := { envPair with isReusable := fun a => a.val == 1 }

/-- C3.  At any point of the dependency loop — any accumulated plan
`result`, any remaining list `d :: rest` — if the recursive install of the
next dependency returns (necessarily with the empty plan), the loop logs
the failure and immediately returns the empty plan: the dependencies in
`rest` are never looked at, the accumulated `result` is dropped from the
return value, and the state `st'` produced by the attempted install —
holding every effect of the earlier installs — is kept as is, not rolled
back. -/
theorem C3_dependency_failure_fail_fast (m : Mgr) (env : Env) (fuel : Nat)
    (st : MState) (result : List String) (d : ScAddr) (rest : List ScAddr)
    (depRes : List String) (st' : MState)
    (h : Execute m env fuel
        (st.log .info
          ("ScComponentManager: Install dependency \"" ++ env.getSystemIdtf d ++ "\""))
        (paramsOf [env.getSystemIdtf d]) = some (depRes, st')) :
    depRes = [] ∧
    DepLoopAux env (Execute m env fuel) st result (d :: rest) =
      some ([],
        st'.log .err
          ("Dependency \"" ++ env.getSystemIdtf d ++ "\" is not installed")) := by
  have hnil : depRes = [] := Execute_fst_nil m env fuel _ _ _ _ h
  subst hnil
  refine ⟨rfl, ?_⟩
  simp only [DepLoopAux]
  rw [h]
  simp

/-- C3 witness: in `envPair`, the install of dependency D (addr 2) succeeds
as a run but returns the empty plan, so the loop — started with a non-empty
accumulated plan and a second dependency still pending — returns the empty
plan at once, keeping the logs of the install of D. -/
theorem C3_fail_fast_witness :
    ([] : List String) = [] ∧
    DepLoopAux envPair (Execute mgr envPair 1) initState ["acc"] [⟨2⟩, ⟨99⟩] =
      some ([],
        (((initState.log .info "ScComponentManager: Install dependency \"D\"").log
              .debug "Validating component \"D").log
            .debug "Component \"D\" is specified correctly").log
          .err "Dependency \"D\" is not installed") :=
  C3_dependency_failure_fail_fast mgr envPair 1 initState ["acc"] ⟨2⟩ [⟨99⟩] [] _ rfl

/-- Any plan the dependency loop returns is the empty list or the untouched
accumulator (with the real recursive call, dependencies never contribute a
non-empty plan). -/
theorem DepLoopAux_exec_fst (m : Mgr) (env : Env) (fuel : Nat) :
    ∀ (deps : List ScAddr) (st : MState) (acc p : List String) (st' : MState),
      DepLoopAux env (Execute m env fuel) st acc deps = some (p, st') →
      p = [] ∨ p = acc := by
  intro deps
  induction deps with
  | nil =>
    intro st acc p st' h
    simp only [DepLoopAux, Option.some.injEq, Prod.mk.injEq] at h
    exact .inr h.1.symm
  | cons d rest ih =>
    intro st acc p st' h
    simp only [DepLoopAux] at h
    split at h
    · exact absurd h (by simp)
    · rename_i dr st2 hE
      have hdr : dr = [] := Execute_fst_nil m env fuel _ _ _ _ hE
      subst hdr
      simp only [List.isEmpty_nil, if_true, Option.some.injEq, Prod.mk.injEq] at h
      exact .inl h.1.symm

/-- C10.  Once a component passes validation, the plan coming back from
`InstallDependencies` is discarded by `Execute` (line 51 ignores the return
value): whatever pair `(plan, st₃)` the dependency phase produces — and the
plan is provably always empty, the marker the code itself uses for a failed
dependency install — the loop continues by running `DownloadComponent` on
`st₃` unconditionally, so a failed dependency never prevents fetching and
loading the dependent component. -/
theorem C10_download_runs_despite_dependency_failure (m : Mgr) (env : Env)
    (fuel : Nat) (st st₂ : MState) (id : String) (rest : List String)
    (hv : ValidateComponent env (st.log .debug ("Validating component \"" ++ id))
        (env.findBySystemIdtf id) = (true, st₂)) :
    ∀ (plan : List String) (st₃ : MState),
      InstallDependenciesAux env (Execute m env fuel)
          (st₂.log .debug ("Component \"" ++ id ++ "\" is specified correctly"))
          (env.findBySystemIdtf id) = some (plan, st₃) →
      plan = [] ∧
      ExecuteLoopAux m env (Execute m env fuel) st (id :: rest) =
        ExecuteLoopAux m env (Execute m env fuel)
          (DownloadComponent m env st₃ (env.findBySystemIdtf id)) rest := by
  intro plan st₃ hI
  constructor
  · unfold InstallDependenciesAux at hI
    split at hI
    · rcases DepLoopAux_exec_fst m env fuel _ _ _ _ _ hI with h | h <;> exact h
    · rcases DepLoopAux_exec_fst m env fuel _ _ _ _ _ hI with h | h <;> exact h
  · simp only [ExecuteLoopAux, hv, hI]

/-- C10 witness: in `envDepFail`, P validates but its dependency D fails
validation, so the dependency phase returns the empty plan; the install of
P still proceeds to `DownloadComponent` on the state left behind. -/
theorem C10_download_witness :
    ([] : List String) = [] ∧
    ExecuteLoopAux mgr envDepFail (Execute mgr envDepFail 1) initState ["P"] =
      ExecuteLoopAux mgr envDepFail (Execute mgr envDepFail 1)
        (DownloadComponent mgr envDepFail
          (((((((initState.log .debug "Validating component \"P").log
                      .debug "Component \"P\" is specified correctly").log
                    .info "ScComponentManager: Install dependency \"D\"").log
                  .debug "Validating component \"D").log
                .warning "Component is not a reusable component.").log
              .warning "Unable to install component \"D").log
            .err "Dependency \"D\" is not installed")
          ⟨1⟩) [] :=
  C10_download_runs_despite_dependency_failure mgr envDepFail 1 initState
    (initState.log .debug "Validating component \"P") "P" [] rfl [] _ rfl

/-- C1 at the failing input: installing P, whose one dependency D is fully
valid and is actually fetched and loaded (two clones are run, two scs files
are loaded, those of D among them), still yields the empty plan, and the code
even logs the install of D as failed because the recursive call returned that
empty plan.  The identifiers of the installed dependencies never reach the
returned plan. -/
theorem C1_plan_empty_despite_dependency_install :
    (Execute mgr envPairGit 3 initState (paramsOf ["P"])).map
        (fun r => (r.1, r.2.execs.length, r.2.loaded.length,
          decide ((⟨.err, "Dependency \"D\" is not installed"⟩ : LogEntry) ∈ r.2.logs))) =
      some ([], 2, 2, true) := by
  decide

/-- An invalid ref fails the first validation check, with only its warning
logged. -/
theorem ValidateComponent_invalid (env : Env) (st : MState) :
    ValidateComponent env st ScAddr.invalid =
      (false, st.log .warning "Component not found. Unable to install") := rfl

/-- An identifier that resolves to no component is skipped by the
identifier loop: the validation warning and the unable-to-install warning
are logged, nothing else changes, and the loop continues with the rest. -/
theorem ExecuteLoopAux_skip_unknown (m : Mgr) (env : Env)
    (execRec : MState → CommandParameters → Option (List String × MState))
    (st : MState) (id : String) (rest : List String)
    (h : env.findBySystemIdtf id = ScAddr.invalid) :
    ExecuteLoopAux m env execRec st (id :: rest) =
      ExecuteLoopAux m env execRec
        (((st.log .debug ("Validating component \"" ++ id)).log .warning
            "Component not found. Unable to install").log .warning
          ("Unable to install component \"" ++ id)) rest := by
  simp only [ExecuteLoopAux, h, ValidateComponent_invalid]

/-- A request made only of unresolvable identifiers ends with the empty
plan and a state differing from the initial one in its log lines alone. -/
theorem ExecuteLoopAux_all_unknown (m : Mgr) (env : Env)
    (execRec : MState → CommandParameters → Option (List String × MState)) :
    ∀ (ids : List String) (st : MState),
      (∀ i ∈ ids, env.findBySystemIdtf i = ScAddr.invalid) →
      ∃ w : List LogEntry,
        ExecuteLoopAux m env execRec st ids =
          some ([], ⟨st.logs ++ w, st.dirs, st.execs, st.loaded⟩) := by
  intro ids
  induction ids with
  | nil =>
    intro st h
    exact ⟨[], by simp [ExecuteLoopAux]⟩
  | cons id rest ih =>
    intro st h
    rw [ExecuteLoopAux_skip_unknown m env execRec st id rest (h id (by simp))]
    obtain ⟨w, hw⟩ := ih _ (fun i hi => h i (by simp [hi]))
    refine ⟨⟨.debug, "Validating component \"" ++ id⟩ ::
      ⟨.warning, "Component not found. Unable to install"⟩ ::
      ⟨.warning, "Unable to install component \"" ++ id⟩ :: w, ?_⟩
    rw [hw]
    simp [MState.log]

/-- C9.  A requested identifier that does not resolve to a component is
rejected at validation: the not-found warning and the unable-to-install
warning are logged for it, no directory, process or load happens for it,
and the loop moves on to the remaining identifiers; a request made only of
such identifiers returns the empty plan with the state changed in its logs
alone (no filesystem or store mutation). -/
theorem C9_unknown_identifier_rejected (m : Mgr) (env : Env) (st : MState)
    (id : String) (rest : List String) (fuel : Nat)
    (hid : env.findBySystemIdtf id = ScAddr.invalid)
    (hrest : ∀ i ∈ rest, env.findBySystemIdtf i = ScAddr.invalid) :
    (∀ execRec, ExecuteLoopAux m env execRec st (id :: rest) =
      ExecuteLoopAux m env execRec
        (((st.log .debug ("Validating component \"" ++ id)).log .warning
            "Component not found. Unable to install").log .warning
          ("Unable to install component \"" ++ id)) rest) ∧
    ∃ w : List LogEntry,
      Execute m env (fuel + 1) st (paramsOf (id :: rest)) =
        some ([], ⟨st.logs ++ w, st.dirs, st.execs, st.loaded⟩) := by
  constructor
  · intro execRec
    exact ExecuteLoopAux_skip_unknown m env execRec st id rest hid
  · have hall : ∀ i ∈ id :: rest, env.findBySystemIdtf i = ScAddr.invalid := by
      intro i hi
      rcases List.mem_cons.mp hi with h | h
      · exact h ▸ hid
      · exact hrest i h
    have hp : paramsOf (id :: rest) PARAMETER_NAME = some (id :: rest) := by
      simp [paramsOf]
    rw [Execute]
    simp only [hp]
    exact ExecuteLoopAux_all_unknown m env _ (id :: rest) st hall

/-- A store in which no identifier resolves. -/
def envUnknown : Env := { envPair with findBySystemIdtf := fun _ => ScAddr.invalid }

/-- C9 witness: requesting the unknown identifier X yields the empty plan,
two warnings in the log, and no other state change. -/
theorem C9_unknown_identifier_witness :
    (∀ execRec, ExecuteLoopAux mgr envUnknown execRec initState ["X"] =
      ExecuteLoopAux mgr envUnknown execRec
        (((initState.log .debug "Validating component \"X").log .warning
            "Component not found. Unable to install").log .warning
          "Unable to install component \"X") []) ∧
    ∃ w : List LogEntry,
      Execute mgr envUnknown 1 initState (paramsOf ["X"]) =
        some ([], ⟨initState.logs ++ w, initState.dirs, initState.execs,
          initState.loaded⟩) :=
  C9_unknown_identifier_rejected mgr envUnknown initState "X" [] 0 rfl (by simp)

/-- A store with validated components A (addr 1) and B (addr 2) depending
on each other: the dependency list of A is [B], that of B is [A]. -/
def envCyc : Env where
  findBySystemIdtf := fun id =>
    if id = "A" then ⟨1⟩ else if id = "B" then ⟨2⟩ else ScAddr.invalid
  getSystemIdtf := fun a => if a.val = 1 then "A" else "B"
  isReusable := fun _ => true
  getComponentAddress := fun a => .ok ⟨a.val + 10⟩
  linkContent := fun _ => "local-address"
  getComponentInstallationMethod := fun _ => .ok ⟨30⟩
  getComponentDependencies := fun a => if a.val = 1 then .ok [⟨2⟩] else .ok [⟨1⟩]
  listDir := fun _ => none

/-- On the cyclic store the mutual recursion between Execute and
InstallDependencies never bottoms out: at every allowed call depth, both
requests are still recursing when the depth runs out. -/
theorem Execute_envCyc_none :
    ∀ (fuel : Nat) (st : MState),
      Execute mgr envCyc fuel st (paramsOf ["A"]) = none ∧
      Execute mgr envCyc fuel st (paramsOf ["B"]) = none := by
  intro fuel
  induction fuel with
  | zero => intro st; exact ⟨rfl, rfl⟩
  | succ fuel ih =>
    intro st
    have hvA : ∀ s : MState, ValidateComponent envCyc s ⟨1⟩ = (true, s) := fun _ => rfl
    have hvB : ∀ s : MState, ValidateComponent envCyc s ⟨2⟩ = (true, s) := fun _ => rfl
    have hfA : envCyc.findBySystemIdtf "A" = ⟨1⟩ := rfl
    have hfB : envCyc.findBySystemIdtf "B" = ⟨2⟩ := rfl
    have hiB : envCyc.getSystemIdtf ⟨2⟩ = "B" := rfl
    have hiA : envCyc.getSystemIdtf ⟨1⟩ = "A" := rfl
    have hdA : envCyc.getComponentDependencies ⟨1⟩ = .ok [⟨2⟩] := rfl
    have hdB : envCyc.getComponentDependencies ⟨2⟩ = .ok [⟨1⟩] := rfl
    constructor
    · rw [Execute]
      have hp : paramsOf ["A"] PARAMETER_NAME = some ["A"] := by simp [paramsOf]
      simp only [hp, ExecuteLoopAux, hfA, hvA, InstallDependenciesAux, hdA,
        DepLoopAux, hiB]
      rw [(ih _).2]
    · rw [Execute]
      have hp : paramsOf ["B"] PARAMETER_NAME = some ["B"] := by simp [paramsOf]
      simp only [hp, ExecuteLoopAux, hfB, hvB, InstallDependenciesAux, hdB,
        DepLoopAux, hiA]
      rw [(ih _).1]

/-- C5 (amended).  The cyclic store of `envCyc` — A and B validated, each
each a dependency of the other — makes the install request for A recurse without
bound: no recursion depth suffices for the run to bottom out. -/
theorem C5_amended_cycle_never_terminates :
    (envCyc.getComponentDependencies ⟨1⟩ = .ok [⟨2⟩] ∧
      envCyc.getComponentDependencies ⟨2⟩ = .ok [⟨1⟩] ∧
      envCyc.findBySystemIdtf "A" = ⟨1⟩ ∧ envCyc.findBySystemIdtf "B" = ⟨2⟩ ∧
      (ValidateComponent envCyc initState ⟨1⟩).1 = true ∧
      (ValidateComponent envCyc initState ⟨2⟩).1 = true) ∧
    ∀ (fuel : Nat) (st : MState),
      Execute mgr envCyc fuel st (paramsOf ["A"]) = none :=
  ⟨⟨rfl, rfl, rfl, rfl, rfl, rfl⟩, fun fuel st => (Execute_envCyc_none fuel st).1⟩

/-- A store with a cycle among validated components that the run never
enters: A (addr 1) lists B (addr 2) and then itself as dependencies; B has
none.  The recursive install of B returns the empty plan, so the loop aborts
before reaching the self-dependency of A. -/
def envTer : Env where
  findBySystemIdtf := fun id =>
    if id = "A" then ⟨1⟩ else if id = "B" then ⟨2⟩ else ScAddr.invalid
  getSystemIdtf := fun a => if a.val = 1 then "A" else "B"
  isReusable := fun _ => true
  getComponentAddress := fun a => .ok ⟨a.val + 10⟩
  linkContent := fun _ => "local-address"
  getComponentInstallationMethod := fun _ => .ok ⟨30⟩
  getComponentDependencies := fun a => if a.val = 1 then .ok [⟨2⟩, ⟨1⟩] else .ok []
  listDir := fun _ => none

/-- C5 counterexample: `envTer` has a dependency cycle reachable from the
requested, validated component A (A is its own second dependency), yet the
install of A terminates — at call depth 2 the run already returns a value.
Acyclicity of the reachable dependency graph is therefore not necessary
for termination. -/
theorem C5_counterexample_cyclic_yet_terminating :
    (envTer.getComponentDependencies ⟨1⟩ = .ok [⟨2⟩, ⟨1⟩] ∧
      envTer.findBySystemIdtf "A" = ⟨1⟩ ∧
      (ValidateComponent envTer initState ⟨1⟩).1 = true) ∧
    (Execute mgr envTer 2 initState (paramsOf ["A"])).isSome = true :=
  ⟨⟨rfl, rfl, rfl⟩, rfl⟩

/-- Counting is monotone under pointwise implication of the predicates. -/
theorem countP_mono_of_imp (p q : String → Bool) (h : ∀ x, p x = true → q x = true) :
    ∀ l : List String, l.countP p ≤ l.countP q := by
  intro l
  induction l with
  | nil => simp
  | cons a t ih =>
    rw [List.countP_cons, List.countP_cons]
    by_cases ha : p a = true
    · rw [if_pos ha, if_pos (h a ha)]
      omega
    · rw [if_neg ha]
      split <;> omega

/-- The number of existing directories at least as long as the candidate
name: the quantity the collision loop strictly shrinks at each step. -/
def collCount (fs : List String) (name : String) : Nat :=
  fs.countP (fun p => decide (name.length ≤ p.length))

/-- Appending a non-empty segment to a colliding name strictly shrinks the
count of directories long enough to collide with it. -/
theorem collCount_append_lt (seg : String) (hseg : 0 < seg.length) :
    ∀ (fs : List String) (name : String), name ∈ fs →
      collCount fs (name ++ seg) < collCount fs name := by
  intro fs
  induction fs with
  | nil => intro name h; cases h
  | cons p t ih =>
    intro name h
    unfold collCount
    rw [List.countP_cons, List.countP_cons]
    have himp : ∀ x : String,
        decide ((name ++ seg).length ≤ x.length) = true →
        decide (name.length ≤ x.length) = true := by
      intro x hx
      rw [decide_eq_true_eq] at hx ⊢
      rw [String.length_append] at hx
      omega
    rcases List.mem_cons.mp h with hp | ht
    · subst hp
      rw [if_neg (by rw [decide_eq_true_eq, String.length_append]; omega)]
      rw [if_pos (by simp)]
      have := countP_mono_of_imp _ _ himp t
      omega
    · have hlt := ih name ht
      unfold collCount at hlt
      by_cases hpa : decide ((name ++ seg).length ≤ p.length) = true
      · rw [if_pos hpa, if_pos (himp p hpa)]
        omega
      · rw [if_neg hpa]
        split <;> omega

/-- Shifting the base of the candidate sequence by one segment. -/
theorem appendSegs_shift (name seg : String) :
    ∀ k, appendSegs (name ++ seg) seg k = appendSegs name seg (k + 1) := by
  intro k
  induction k with
  | zero => rfl
  | succ k ih =>
    rw [appendSegs, ih]
    rfl

/-- The collision loop, run with enough steps, lands on the first candidate
name that is free: the result is `name` with the segment appended some `k`
times, that name is not an existing directory, and every earlier candidate
in the sequence is one. -/
theorem findFreeDirNameAux_spec (fs : List String) (seg : String)
    (hseg : 0 < seg.length) :
    ∀ (fuel : Nat) (name : String), collCount fs name < fuel →
      ∃ k, findFreeDirNameAux fs seg fuel name = appendSegs name seg k ∧
        appendSegs name seg k ∉ fs ∧ ∀ j, j < k → appendSegs name seg j ∈ fs := by
  intro fuel
  induction fuel with
  | zero =>
    intro name h
    exact absurd h (Nat.not_lt_zero _)
  | succ fuel ih =>
    intro name h
    by_cases hmem : name ∈ fs
    · have hlt : collCount fs (name ++ seg) < fuel :=
        Nat.lt_of_lt_of_le (collCount_append_lt seg hseg fs name hmem)
          (Nat.lt_succ_iff.mp h)
      obtain ⟨k, hk, hfree, hall⟩ := ih (name ++ seg) hlt
      refine ⟨k + 1, ?_, ?_, ?_⟩
      · rw [findFreeDirNameAux, if_pos hmem, hk, appendSegs_shift]
      · rw [← appendSegs_shift]
        exact hfree
      · intro j hj
        cases j with
        | zero => exact hmem
        | succ j =>
          rw [← appendSegs_shift]
          exact hall j (Nat.lt_of_succ_lt_succ hj)
    · refine ⟨0, ?_, hmem, ?_⟩
      · rw [findFreeDirNameAux, if_neg hmem]
        rfl
      · intro j hj
        omega

/-- The step bound `fs.length + 1` used by `findFreeDirName` suffices: the
loop of the source settles on the first free candidate name. -/
theorem findFreeDirName_spec (fs : List String) (seg name : String)
    (hseg : 0 < seg.length) :
    ∃ k, findFreeDirName fs seg name = appendSegs name seg k ∧
      appendSegs name seg k ∉ fs ∧ ∀ j, j < k → appendSegs name seg j ∈ fs :=
  findFreeDirNameAux_spec fs seg hseg (fs.length + 1) name
    (Nat.lt_succ_of_le (List.countP_le_length _))

/-- The path segment re-appended by the collision loop always starts with
the slash it was cut at, so it is never empty. -/
theorem suffixFromLastSlash_length_pos (s : String) :
    0 < (suffixFromLastSlash s).length := Nat.succ_pos _

/-- On a recognized address, fetching pushes exactly the chosen staging
directory onto the directories existing on disk. -/
theorem DownloadComponentBody_dirs (m : Mgr) (env : Env) (st : MState)
    (content : String) (h : strContains content GITHUB_PREFIX = true) :
    (DownloadComponentBody m env st content).dirs =
      chosenDirName m st content :: st.dirs := by
  unfold DownloadComponentBody
  rw [h]
  simp only [if_true]
  cases env.listDir (chosenDirName m st content ++ suffixFromLastSlash content) <;> simp

/-- C8.  For a fetch of a recognized remote address, the staging directory
is the first name of the sequence root+segment, root+segment+segment, …
(segment: the final path segment of the address, slash included) that does not
already exist on disk: the chosen name is free — an existing directory is
never reused or overwritten — every earlier name of the sequence was
taken, and the fetch then creates exactly that directory.  The search is
total here (the spec lemmas above bound it by the number of existing
directories), so it stops whenever some candidate is free. -/
theorem C8_staging_dir_is_first_free_name (m : Mgr) (env : Env) (st : MState)
    (c a : ScAddr) (hA : env.getComponentAddress c = .ok a)
    (hGit : strContains (env.getLinkContent a) GITHUB_PREFIX = true) :
    ∃ k,
      chosenDirName m st (env.getLinkContent a) =
        appendSegs
          (m.m_specificationsPath ++ suffixFromLastSlash (env.getLinkContent a))
          (suffixFromLastSlash (env.getLinkContent a)) k ∧
      chosenDirName m st (env.getLinkContent a) ∉ st.dirs ∧
      (∀ j, j < k →
        appendSegs
          (m.m_specificationsPath ++ suffixFromLastSlash (env.getLinkContent a))
          (suffixFromLastSlash (env.getLinkContent a)) j ∈ st.dirs) ∧
      (DownloadComponent m env st c).dirs =
        chosenDirName m st (env.getLinkContent a) :: st.dirs := by
  obtain ⟨k, hk, hfree, hall⟩ :=
    findFreeDirName_spec st.dirs (suffixFromLastSlash (env.getLinkContent a))
      (m.m_specificationsPath ++ suffixFromLastSlash (env.getLinkContent a))
      (suffixFromLastSlash_length_pos _)
  have hchosen : chosenDirName m st (env.getLinkContent a) =
      appendSegs
        (m.m_specificationsPath ++ suffixFromLastSlash (env.getLinkContent a))
        (suffixFromLastSlash (env.getLinkContent a)) k := hk
  refine ⟨k, hchosen, ?_, hall, ?_⟩
  · rw [hchosen]
    exact hfree
  · simp only [DownloadComponent, hA]
    exact DownloadComponentBody_dirs m env st _ hGit

/-- A one-component store whose remote address is a GitHub one. -/
def envColl : Env where
  findBySystemIdtf := fun _ => ⟨1⟩
  getSystemIdtf := fun _ => "P"
  isReusable := fun _ => true
  getComponentAddress := fun _ => .ok ⟨10⟩
  linkContent := fun _ => "https://github.com/own/repo"
  getComponentInstallationMethod := fun _ => .ok ⟨30⟩
  getComponentDependencies := fun _ => .ok []
  listDir := fun _ => none

/-- A disk state on which the first two candidate staging names are taken. -/
def stColl : MState := ⟨[], ["spec/repo", "spec/repo/repo"], [], []⟩

/-- C8 witness: with "spec/repo" and "spec/repo/repo" already on disk, the
fetch settles on a fresh name of the candidate sequence, every earlier
candidate being taken, and creates exactly it. -/
theorem C8_staging_dir_witness :
    ∃ k,
      chosenDirName mgr stColl "https://github.com/own/repo" =
        appendSegs "spec/repo" "/repo" k ∧
      chosenDirName mgr stColl "https://github.com/own/repo" ∉ stColl.dirs ∧
      (∀ j, j < k → appendSegs "spec/repo" "/repo" j ∈ stColl.dirs) ∧
      (DownloadComponent mgr envColl stColl ⟨1⟩).dirs =
        chosenDirName mgr stColl "https://github.com/own/repo" :: stColl.dirs :=
  C8_staging_dir_is_first_free_name mgr envColl stColl ⟨1⟩ ⟨10⟩ rfl rfl

/-- Variant of `envColl` with a staged directory holding one file whose name contains
the scs extension in its middle but does not end with it. -/
def envScsBak : Env := { envColl with listDir := fun _ => some ["evil.scs.bak"] }

/-- C6 counterexample: the staged directory holds only "evil.scs.bak",
whose name does not end in the scs extension, yet the fetch passes it to
the loader — the filter of line 218 (`rfind(".scs") != npos`) accepts any
name containing ".scs", not only names ending with it. -/
theorem C6_counterexample_non_scs_suffix_loaded :
    (DownloadComponent mgr envScsBak initState ⟨1⟩).loaded =
      ["spec/repo/repo/evil.scs.bak"] ∧
    ¬ ".scs".data <:+ "evil.scs.bak".data := by
  exact ⟨rfl, by decide⟩

/-- C6 (amended).  For every staged directory enumerated by the fetcher,
exactly those immediate entries whose file name contains the substring
".scs" are passed to the loader — in particular every file ending in .scs
is loaded, but so is any file merely containing ".scs" elsewhere in its
name; files whose names do not contain the substring are never loaded. -/
theorem C6_amended_loads_exactly_scs_substring_entries (m : Mgr) (env : Env)
    (st : MState) (c a : ScAddr) (entries : List String)
    (hA : env.getComponentAddress c = .ok a)
    (hGit : strContains (env.getLinkContent a) GITHUB_PREFIX = true)
    (hL : env.listDir (cloneDirName m st (env.getLinkContent a)) = some entries) :
    (DownloadComponent m env st c).loaded =
      st.loaded ++
        (entries.filter (fun filename => strContains filename ".scs")).map
          (fun filename =>
            cloneDirName m st (env.getLinkContent a) ++ "/" ++ filename) := by
  simp only [cloneDirName] at hL
  simp only [DownloadComponent, hA, DownloadComponentBody, hGit, if_true, hL,
    cloneDirName]

/-- Variant of `envColl` with a staged directory holding one scs file and one other
file. -/
def envScsTwo : Env :=
  { envColl with listDir := fun _ => some ["good.scs", "readme.md"] }

/-- C6 witness: of the two staged entries, only the one containing ".scs"
reaches the loader. -/
theorem C6_scs_filter_witness :
    (DownloadComponent mgr envScsTwo initState ⟨1⟩).loaded =
      initState.loaded ++
        ((["good.scs", "readme.md"].filter
            (fun filename => strContains filename ".scs")).map
          (fun filename =>
            cloneDirName mgr initState "https://github.com/own/repo" ++ "/" ++ filename)) :=
  C6_amended_loads_exactly_scs_substring_entries mgr envScsTwo initState ⟨1⟩ ⟨10⟩
    ["good.scs", "readme.md"] rfl rfl rfl

/-- Variant of `envColl` with an address that contains the hosting prefix in its
middle without starting with it. -/
def envMid : Env :=
  { envColl with linkContent := fun _ => "mirror-of https://github.com/own/repo" }

/-- C7 counterexample: the resolved address does not match (start with) the
recognized hosting prefix — it only mentions it later in the string — yet
the fetch is not a no-op: an external clone process is run (the source
tests `find(prefix) != npos`, substring containment, not a prefix match). -/
theorem C7_counterexample_contained_prefix_not_noop :
    ¬ GITHUB_PREFIX.data <+: "mirror-of https://github.com/own/repo".data ∧
    (DownloadComponent mgr envMid initState ⟨1⟩).execs ≠ [] := by
  exact ⟨by decide, by decide⟩

/-- C7 (amended).  For every component whose resolved remote-address string
does not contain the recognized hosting prefix as a substring, the fetch is
a silent no-op: the state is returned untouched — no directory created, no
external process run, no loader call, and no log line (so no error
reported). -/
theorem C7_amended_noop_no_prefix_substring (m : Mgr) (env : Env) (st : MState)
    (c a : ScAddr) (hA : env.getComponentAddress c = .ok a)
    (hGit : strContains (env.getLinkContent a) GITHUB_PREFIX = false) :
    DownloadComponent m env st c = st := by
  simp only [DownloadComponent, hA, DownloadComponentBody, hGit]
  simp

/-- Variant of `envColl` with an address mentioning no hosting prefix at all. -/
def envNoGit : Env :=
  { envColl with linkContent := fun _ => "ftp://example.org/own/repo" }

/-- C7 witness: fetching the component with the unrecognized address
changes nothing at all. -/
theorem C7_silent_noop_witness :
    DownloadComponent mgr envNoGit initState ⟨1⟩ = initState :=
  C7_amended_noop_no_prefix_substring mgr envNoGit initState ⟨1⟩ ⟨10⟩ rfl rfl

end SCM
